import Mathlib

/-!
# A shallow embedding of the `unciv` ZFS/RIM decoders

This file embeds the two binary decoders of the `unciv` extractor
(`src/lib.rs`, `src/main.rs`) as executable Lean definitions over an
explicit cursor-style byte stream, and proves the specification's
claims about them.

Conventions of the embedding:
* A Rust `impl Read + Seek` stream is modelled by `ByteStream`: the full
  byte contents plus a cursor position (the semantics of an
  `std::io::Cursor` / `File`).
* Machine integers are `Nat`s; `u16` wrap-around arithmetic (release
  mode semantics) is written with explicit `% 65536`, and `as u8` casts
  with `% 256`.
* Fallible operations return `Except DecodeErr (α × ByteStream)`; a Rust
  panic (an `.unwrap()` of an `Err`, an out-of-bounds index, or a
  division by zero) is modelled by the distinguished error `.panicked`,
  which is *not* an error return of the Rust code.
* Rust `String`s are modelled as lists of Unicode scalar values
  (`List Nat`).
-/

/-- The errors (and panics) the decoders can produce.
`invalidSignature`, `unknownPixelFormat` model the `io::Error::new(Other, …)`
values built by the source; `shortRead` models the `UnexpectedEof` error of
`read_exact`; `panicked` models a Rust panic (not an error return). -/
inductive DecodeErr where
  | invalidSignature
  | unknownPixelFormat
  | shortRead
  | panicked
deriving DecidableEq

/-- A seekable byte stream: the underlying bytes and a cursor position.
Models the `impl Read + Seek` readers (`File`/`Cursor`) the decoders use. -/
structure ByteStream where
  data : List Nat
  pos : Nat
deriving DecidableEq

/-- The byte of `data` at index `i` (0 when out of range); reads past the
end never happen in the success cases we prove. -/
def byteAt (data : List Nat) (i : Nat) : Nat := data.getD i 0

/-- The little-endian 16-bit value stored at index `i` of `data`. -/
def le16At (data : List Nat) (i : Nat) : Nat :=
  byteAt data i + 256 * byteAt data (i + 1)

/-- The little-endian 32-bit value stored at index `i` of `data`. -/
def le32At (data : List Nat) (i : Nat) : Nat :=
  byteAt data i + 256 * byteAt data (i + 1) + 65536 * byteAt data (i + 2) +
    16777216 * byteAt data (i + 3)

/-- `byteorder`'s `read_u16::<LittleEndian>`: read exactly two bytes,
little-endian; `UnexpectedEof` (`shortRead`) if the stream is exhausted. -/
def readU16le (s : ByteStream) : Except DecodeErr (Nat × ByteStream) :=
  if s.pos + 2 ≤ s.data.length then
    .ok (le16At s.data s.pos, { s with pos := s.pos + 2 })
  else
    .error .shortRead

/-- `byteorder`'s `read_u32::<LittleEndian>`: read exactly four bytes,
little-endian; `UnexpectedEof` (`shortRead`) if the stream is exhausted. -/
def readU32le (s : ByteStream) : Except DecodeErr (Nat × ByteStream) :=
  if s.pos + 4 ≤ s.data.length then
    .ok (le32At s.data s.pos, { s with pos := s.pos + 4 })
  else
    .error .shortRead

/-- `read_exact` into a buffer of length `n`: returns exactly the next `n`
bytes, or `shortRead` when fewer are available. -/
def readExact (n : Nat) (s : ByteStream) : Except DecodeErr (List Nat × ByteStream) :=
  if s.pos + n ≤ s.data.length then
    .ok ((s.data.drop s.pos).take n, { s with pos := s.pos + n })
  else
    .error .shortRead

/-- A single `Read::read` call into a zero-initialised buffer of length `n`
(cursor semantics): copies `min n remaining` bytes, leaves the rest of the
buffer zero, and never fails. -/
def readFill (n : Nat) (s : ByteStream) : Except DecodeErr (List Nat × ByteStream) :=
  let k := min n (s.data.length - s.pos)
  .ok ((s.data.drop s.pos).take k ++ List.replicate (n - k) 0,
    { s with pos := s.pos + k })

/-- `Seek::seek(SeekFrom::Start(off))` on a cursor: always succeeds. -/
def seekFromStart (off : Nat) (s : ByteStream) : Except DecodeErr (Unit × ByteStream) :=
  .ok ((), { s with pos := off })

/-- `Seek::seek(SeekFrom::Current(delta))` for a non-negative `delta`
(every relative seek in the source casts a `u16` difference, hence is
non-negative): always succeeds on a cursor. -/
def seekFromCurrent (delta : Nat) (s : ByteStream) : Except DecodeErr (Unit × ByteStream) :=
  .ok ((), { s with pos := s.pos + delta })

/-! ## The RIM image decoder (`src/lib.rs`) -/

/-- The pixel format of a RIM image (`enum RimFormat`). -/
inductive RimFormat where
  /-- 16-bit RGB, with 1 ignored, 5 red, 5 green, and 5 blue bits. -/
  | RGB555
  /-- 16-bit RGB, with 5 red, 6 green, and 5 blue bits. -/
  | RGB565
deriving DecidableEq

/-- The FOURCC signature of a RIM file, `'RIMF'`. -/
def RIM_SIGNATURE : Nat := 0x464d4952

/-- The raw headers for a Rim Image file, excluding the `'RIMF'` signature
(`struct RimHeader`; `u32`/`u16` fields are `Nat`s). -/
structure RimHeader where
  ver : Nat
  width : Nat
  height : Nat
  pitch : Nat
  fmt : RimFormat
deriving DecidableEq

/-- `RimHeader::from_stream`: read the signature, version, width, height,
pitch and format code, rejecting a bad signature or an unknown format. -/
def RimHeader.from_stream (s : ByteStream) : Except DecodeErr (RimHeader × ByteStream) :=
  match readU32le s with
  | .error e => .error e
  | .ok (rim_sig, s) =>
    if rim_sig ≠ RIM_SIGNATURE then
      .error .invalidSignature
    else
      match readU32le s with
      | .error e => .error e
      | .ok (rim_ver, s) =>
        match readU16le s with
        | .error e => .error e
        | .ok (rim_width, s) =>
          match readU16le s with
          | .error e => .error e
          | .ok (rim_height, s) =>
            match readU16le s with
            | .error e => .error e
            | .ok (rim_pitch, s) =>
              match readU16le s with
              | .error e => .error e
              | .ok (rim_fmt, s) =>
                match rim_fmt with
                | 0 => .ok (⟨rim_ver, rim_width, rim_height, rim_pitch, .RGB555⟩, s)
                | 1 => .ok (⟨rim_ver, rim_width, rim_height, rim_pitch, .RGB565⟩, s)
                | _ => .error .unknownPixelFormat

/-- The inner pixel loop of `RimHeader::read_contiguous`: push `w` 16-bit
little-endian pixels onto `data`, propagating read errors with `?`. -/
def readPxRow (w : Nat) (data : List Nat) (s : ByteStream) :
    Except DecodeErr (List Nat × ByteStream) :=
  match w with
  | 0 => .ok (data, s)
  | w' + 1 =>
    match readU16le s with
    | .error e => .error e
    | .ok (px, s) => readPxRow w' (data ++ [px]) s

/-- The row loop of `RimHeader::read_contiguous`: after each row of `width`
pixels, if `width * 2 != pitch` (`u16` compare), seek forward by the `u16`
difference `pitch - width * 2` (release-mode wrap-around). -/
def rimRowsLoop (hd : RimHeader) (rows : Nat) (data : List Nat) (s : ByteStream) :
    Except DecodeErr (List Nat × ByteStream) :=
  match rows with
  | 0 => .ok (data, s)
  | r + 1 =>
    match readPxRow hd.width data s with
    | .error e => .error e
    | .ok (data, s) =>
      if (hd.width * 2) % 65536 ≠ hd.pitch % 65536 then
        match seekFromCurrent ((hd.pitch % 65536 + 65536 - (hd.width * 2) % 65536) % 65536) s with
        | .error e => .error e
        | .ok (_, s) => rimRowsLoop hd r data s
      else
        rimRowsLoop hd r data s

/-- `RimHeader::read_contiguous`: the raw 16-bit pixel data, row padding
removed. -/
def RimHeader.read_contiguous (hd : RimHeader) (s : ByteStream) :
    Except DecodeErr (List Nat × ByteStream) :=
  rimRowsLoop hd hd.height [] s

/-- The inner pixel loop of `RimHeader::read_rgba_bytes`: per pixel, read a
16-bit value — note the source calls `.unwrap()` here, so a failed read is a
panic, not an error return — convert it by the format's shifts and masks,
and push the four RGBA bytes. -/
def readRgbaRow (fmt : RimFormat) (w : Nat) (data : List Nat) (s : ByteStream) :
    Except DecodeErr (List Nat × ByteStream) :=
  match w with
  | 0 => .ok (data, s)
  | w' + 1 =>
    match fmt with
    | .RGB555 =>
      match readU16le s with
      | .error _ => .error .panicked
      | .ok (px555, s) =>
        readRgbaRow fmt w' (data ++
          [(((px555 >>> 10) &&& 31) <<< 3) % 256,
           (((px555 >>> 5) &&& 31) <<< 3) % 256,
           (((px555 >>> 0) &&& 31) <<< 3) % 256,
           255]) s
    | .RGB565 =>
      match readU16le s with
      | .error _ => .error .panicked
      | .ok (px565, s) =>
        readRgbaRow fmt w' (data ++
          [(((px565 >>> 10) &&& 31) <<< 3) % 256,
           (((px565 >>> 5) &&& 63) <<< 2) % 256,
           (((px565 >>> 0) &&& 31) <<< 3) % 256,
           255]) s

/-- The row loop of `RimHeader::read_rgba_bytes` (same pitch handling as
`read_contiguous`). -/
def rgbaRowsLoop (hd : RimHeader) (rows : Nat) (data : List Nat) (s : ByteStream) :
    Except DecodeErr (List Nat × ByteStream) :=
  match rows with
  | 0 => .ok (data, s)
  | r + 1 =>
    match readRgbaRow hd.fmt hd.width data s with
    | .error e => .error e
    | .ok (data, s) =>
      if (hd.width * 2) % 65536 ≠ hd.pitch % 65536 then
        match seekFromCurrent ((hd.pitch % 65536 + 65536 - (hd.width * 2) % 65536) % 65536) s with
        | .error e => .error e
        | .ok (_, s) => rgbaRowsLoop hd r data s
      else
        rgbaRowsLoop hd r data s

/-- `RimHeader::read_rgba_bytes`: the image data converted to 32-bit RGBA. -/
def RimHeader.read_rgba_bytes (hd : RimHeader) (s : ByteStream) :
    Except DecodeErr (List Nat × ByteStream) :=
  rgbaRowsLoop hd hd.height [] s

/-- `convert_565_888` (`src/main.rs`): read one packed RGB565 pixel
(`.unwrap()`, hence a panic on short read) and emit its four RGBA bytes;
red is taken from bits 11–15 here, unlike `read_rgba_bytes`. -/
def convert_565_888 (s : ByteStream) : Except DecodeErr (List Nat × ByteStream) :=
  match readU16le s with
  | .error _ => .error .panicked
  | .ok (px555, s) =>
    .ok ([(((px555 >>> 11) &&& 31) <<< 3) % 256,
          (((px555 >>> 5) &&& 63) <<< 2) % 256,
          (((px555 >>> 0) &&& 31) <<< 3) % 256,
          255], s)

/-! ## The ZFS directory decoder (`src/lib.rs`) -/

/-- Is `b` a UTF-8 continuation byte (`0x80..=0xBF`)? -/
def utf8Cont (b : Nat) : Bool := 128 ≤ b && b < 192

/-- One step of Rust's `String::from_utf8_lossy`, fuelled (the fuel is the
input length; each step consumes at least one byte).  Produces the decoded
Unicode scalar values, substituting `U+FFFD` for each maximal invalid
subpart exactly as Rust's lossy decoding does (overlong encodings,
surrogates and out-of-range leads are invalid). -/
def utf8Go (fuel : Nat) (l : List Nat) : List Nat :=
  match fuel with
  | 0 => []
  | fuel + 1 =>
    match l with
    | [] => []
    | b :: rest =>
      if b < 128 then
        b :: utf8Go fuel rest
      else if b < 194 then
        -- continuation byte as lead, or overlong 0xC0/0xC1
        0xFFFD :: utf8Go fuel rest
      else if b < 224 then
        -- two-byte sequence
        match rest with
        | [] => [0xFFFD]
        | b2 :: rest2 =>
          if utf8Cont b2 then
            ((b % 32) * 64 + b2 % 64) :: utf8Go fuel rest2
          else
            0xFFFD :: utf8Go fuel rest
      else if b < 240 then
        -- three-byte sequence (0xE0 must not be overlong, 0xED no surrogates)
        match rest with
        | [] => [0xFFFD]
        | b2 :: rest2 =>
          if (if b = 224 then 160 ≤ b2 && b2 < 192
              else if b = 237 then 128 ≤ b2 && b2 < 160
              else utf8Cont b2) then
            match rest2 with
            | [] => [0xFFFD]
            | b3 :: rest3 =>
              if utf8Cont b3 then
                ((b % 16) * 4096 + (b2 % 64) * 64 + b3 % 64) :: utf8Go fuel rest3
              else
                0xFFFD :: utf8Go fuel rest2
          else
            0xFFFD :: utf8Go fuel rest
      else if b < 245 then
        -- four-byte sequence (0xF0 must not be overlong, 0xF4 capped at U+10FFFF)
        match rest with
        | [] => [0xFFFD]
        | b2 :: rest2 =>
          if (if b = 240 then 144 ≤ b2 && b2 < 192
              else if b = 244 then 128 ≤ b2 && b2 < 144
              else utf8Cont b2) then
            match rest2 with
            | [] => [0xFFFD]
            | b3 :: rest3 =>
              if utf8Cont b3 then
                match rest3 with
                | [] => [0xFFFD]
                | b4 :: rest4 =>
                  if utf8Cont b4 then
                    ((b % 8) * 262144 + (b2 % 64) * 4096 + (b3 % 64) * 64 + b4 % 64) ::
                      utf8Go fuel rest4
                  else
                    0xFFFD :: utf8Go fuel rest3
              else
                0xFFFD :: utf8Go fuel rest2
          else
            0xFFFD :: utf8Go fuel rest
      else
        0xFFFD :: utf8Go fuel rest

/-- `String::from_utf8_lossy`, as a function from raw bytes to the decoded
Unicode scalar values. -/
def utf8LossyScalars (l : List Nat) : List Nat := utf8Go l.length l

/-- Remove a maximal suffix of NUL scalars (the tail half of Rust's
`str::trim_matches('\0')`). -/
def dropTrailingZeros (l : List Nat) : List Nat :=
  match l with
  | [] => []
  | a :: as =>
    match dropTrailingZeros as with
    | [] => if a = 0 then [] else [a]
    | bs => a :: bs

/-- `str::trim_matches('\0')`: strip NUL scalars from both ends. -/
def trimZeros (l : List Nat) : List Nat :=
  dropTrailingZeros (l.dropWhile (fun x => x == 0))

/-- The FOURCC signature of a ZFS file, `'ZFS3'`. -/
def ZFS_SIGNATURE : Nat := 0x3353465a

/-- A single entry in a ZFS file (`struct ZfsEntry`); the `name` is the
decoded Rust `String` as Unicode scalar values, and `timestamp` is the
`u32` seconds-since-epoch value the `SystemTime` is built from. -/
structure ZfsEntry where
  name : List Nat
  offset : Nat
  size : Nat
  timestamp : Nat
  flags : Nat
deriving DecidableEq

/-- The headers of a ZFS file (`struct ZfsHeaders`). -/
structure ZfsHeaders where
  version : Nat
  max_filename_len : Nat
  files : List ZfsEntry
deriving DecidableEq

/-- Ghost instrumentation of a `ZfsHeaders::from_stream` run: the header's
declared counts, the table pages seeked to, the loop indices after which a
fresh next-table pointer was read, and the raw name field that triggered
the zero-byte break (if any).  Recording these does not alter the control
flow translated from the source. -/
structure ZfsTrace where
  numFiles : Nat
  filesPerTable : Nat
  pages : List Nat
  jumps : List Nat
  stopped : Option (List Nat)
deriving DecidableEq

/-- The entry-reading loop of `ZfsHeaders::from_stream` (`for i in
0..num_files`), instrumented with a `ZfsTrace`.  `rem` counts the remaining
iterations (`rem = num_files - i`).  Per iteration: `read_exact` the name
field; `raw_name[0]` panics if the field is empty; break if the first byte
is zero; otherwise decode the name, read the five `u32` fields, push the
entry, and — `i % files_per_table` panicking on a zero divisor — jump to
the previously read next-table offset and read a fresh pointer whenever
`i % files_per_table == files_per_table - 1`. -/
def zfsLoopT (maxLen fpt : Nat) (i rem nto : Nat) (files : List ZfsEntry)
    (tr : ZfsTrace) (s : ByteStream) :
    Except DecodeErr (List ZfsEntry × ZfsTrace × ByteStream) :=
  match rem with
  | 0 => .ok (files, tr, s)
  | rem' + 1 =>
    match readExact maxLen s with
    | .error e => .error e
    | .ok (raw_name, s) =>
      match raw_name.head? with
      | none => .error .panicked
      | some b0 =>
        if b0 = 0 then
          .ok (files, { tr with stopped := some raw_name }, s)
        else
          match readU32le s with
          | .error e => .error e
          | .ok (data_offset, s) =>
            match readU32le s with
            | .error e => .error e
            | .ok (_unk3, s) =>
              match readU32le s with
              | .error e => .error e
              | .ok (data_size, s) =>
                match readU32le s with
                | .error e => .error e
                | .ok (timestamp, s) =>
                  match readU32le s with
                  | .error e => .error e
                  | .ok (flags, s) =>
                    let files := files ++
                      [⟨trimZeros (utf8LossyScalars raw_name),
                        data_offset, data_size, timestamp, flags⟩]
                    if fpt = 0 then
                      .error .panicked
                    else if i % fpt = fpt - 1 then
                      match seekFromStart nto s with
                      | .error e => .error e
                      | .ok (_, s) =>
                        match readU32le s with
                        | .error e => .error e
                        | .ok (nto2, s) =>
                          zfsLoopT maxLen fpt (i + 1) rem' nto2 files
                            { tr with pages := tr.pages ++ [nto],
                                      jumps := tr.jumps ++ [i] } s
                    else
                      zfsLoopT maxLen fpt (i + 1) rem' nto files tr s

/-- `ZfsHeaders::from_stream`, instrumented with a `ZfsTrace`: check the
signature, read the six header fields, seek to the file table, read the
first next-table pointer and run the entry loop. -/
def ZfsHeaders.from_streamT (s : ByteStream) :
    Except DecodeErr (ZfsHeaders × ZfsTrace × ByteStream) :=
  match readU32le s with
  | .error e => .error e
  | .ok (sig, s) =>
    if sig ≠ ZFS_SIGNATURE then
      .error .invalidSignature
    else
      match readU32le s with
      | .error e => .error e
      | .ok (version, s) =>
        match readU32le s with
        | .error e => .error e
        | .ok (max_filename_len, s) =>
          match readU32le s with
          | .error e => .error e
          | .ok (files_per_table, s) =>
            match readU32le s with
            | .error e => .error e
            | .ok (num_files, s) =>
              match readU32le s with
              | .error e => .error e
              | .ok (_unk2, s) =>
                match readU32le s with
                | .error e => .error e
                | .ok (filetable_offset, s) =>
                  match seekFromStart filetable_offset s with
                  | .error e => .error e
                  | .ok (_, s) =>
                    match readU32le s with
                    | .error e => .error e
                    | .ok (next_table_offset, s) =>
                      match zfsLoopT max_filename_len files_per_table 0 num_files
                          next_table_offset []
                          ⟨num_files, files_per_table, [filetable_offset], [], none⟩ s with
                      | .error e => .error e
                      | .ok (files, tr, s) =>
                        .ok (⟨version, max_filename_len, files⟩, tr, s)

/-- `ZfsHeaders::from_stream` proper: the traced run with the ghost trace
discarded. -/
def ZfsHeaders.from_stream (s : ByteStream) :
    Except DecodeErr (ZfsHeaders × ByteStream) :=
  match ZfsHeaders.from_streamT s with
  | .error e => .error e
  | .ok (h, _, s) => .ok (h, s)

/-- `ZfsEntry::get_data`: allocate a zeroed buffer of `size` bytes, seek to
`offset`, and issue a single (uncounted) `read` into the buffer. -/
def ZfsEntry.get_data (e : ZfsEntry) (s : ByteStream) :
    Except DecodeErr (List Nat × ByteStream) :=
  match seekFromStart e.offset s with
  | .error err => .error err
  | .ok (_, s) =>
    match readFill e.size s with
    | .error err => .error err
    | .ok (buffer, s) => .ok (buffer, s)

/-! ## Closed forms for the RIM pixel loops -/

/-- The mathematical contents of one pixel row: `w` little-endian 16-bit
values taken every 2 bytes from `start`. -/
def pxSeq (data : List Nat) (start : Nat) (w : Nat) : List Nat :=
  match w with
  | 0 => []
  | w' + 1 => le16At data start :: pxSeq data (start + 2) w'

/-- The mathematical contents of a pitched image: `rows` rows of `w`
pixels, consecutive rows `pitch` bytes apart. -/
def rowSeq (data : List Nat) (start w pitch : Nat) (rows : Nat) : List Nat :=
  match rows with
  | 0 => []
  | r + 1 => pxSeq data start w ++ rowSeq data (start + pitch) w pitch r

/-- The RGBA bytes `read_rgba_bytes` produces for one packed pixel. -/
def pxToRgba (fmt : RimFormat) (px : Nat) : List Nat :=
  match fmt with
  | .RGB555 =>
    [(((px >>> 10) &&& 31) <<< 3) % 256,
     (((px >>> 5) &&& 31) <<< 3) % 256,
     (((px >>> 0) &&& 31) <<< 3) % 256,
     255]
  | .RGB565 =>
    [(((px >>> 10) &&& 31) <<< 3) % 256,
     (((px >>> 5) &&& 63) <<< 2) % 256,
     (((px >>> 0) &&& 31) <<< 3) % 256,
     255]

/-- The RGBA bytes of one pixel row. -/
def rgbaPxSeq (fmt : RimFormat) (data : List Nat) (start : Nat) (w : Nat) : List Nat :=
  match w with
  | 0 => []
  | w' + 1 => pxToRgba fmt (le16At data start) ++ rgbaPxSeq fmt data (start + 2) w'

/-- The RGBA bytes of a pitched image. -/
def rgbaRowSeq (fmt : RimFormat) (data : List Nat) (start w pitch : Nat) (rows : Nat) : List Nat :=
  match rows with
  | 0 => []
  | r + 1 => rgbaPxSeq fmt data start w ++ rgbaRowSeq fmt data (start + pitch) w pitch r

theorem pxSeq_length (data : List Nat) : ∀ (w start : Nat), (pxSeq data start w).length = w := by
  intro w
  induction w with
  | zero => intro start; rfl
  | succ w ih => intro start; simp [pxSeq, ih]

theorem rowSeq_length (data : List Nat) (w pitch : Nat) :
    ∀ (rows start : Nat), (rowSeq data start w pitch rows).length = rows * w := by
  intro rows
  induction rows with
  | zero => intro start; simp [rowSeq]
  | succ r ih =>
    intro start
    simp [rowSeq, pxSeq_length, ih, Nat.succ_mul]
    omega

theorem pxSeq_getElem? (data : List Nat) :
    ∀ (w c start : Nat), c < w →
      (pxSeq data start w)[c]? = some (le16At data (start + 2 * c)) := by
  intro w
  induction w with
  | zero => intro c start hc; omega
  | succ w ih =>
    intro c start hc
    match c with
    | 0 => simp [pxSeq]
    | c' + 1 =>
      have h := ih c' (start + 2) (by omega)
      simp only [pxSeq, List.getElem?_cons_succ, h]
      rw [show start + 2 + 2 * c' = start + 2 * (c' + 1) from by omega]

theorem rowSeq_getElem? (data : List Nat) (w pitch : Nat) :
    ∀ (rows r c start : Nat), r < rows → c < w →
      (rowSeq data start w pitch rows)[r * w + c]? =
        some (le16At data (start + r * pitch + 2 * c)) := by
  intro rows
  induction rows with
  | zero => intro r c start hr hc; omega
  | succ rows ih =>
    intro r c start hr hc
    match r with
    | 0 =>
      have hlt : 0 * w + c < (pxSeq data start w).length := by
        rw [pxSeq_length]; omega
      rw [rowSeq, List.getElem?_append_left hlt]
      have h := pxSeq_getElem? data w c start hc
      simp only [Nat.zero_mul, Nat.zero_add, Nat.add_zero] at h ⊢
      rw [h]
    | r' + 1 =>
      have hge : (pxSeq data start w).length ≤ (r' + 1) * w + c := by
        rw [pxSeq_length, Nat.succ_mul]; omega
      rw [rowSeq, List.getElem?_append_right hge]
      have hidx : (r' + 1) * w + c - (pxSeq data start w).length = r' * w + c := by
        rw [pxSeq_length, Nat.succ_mul]; omega
      rw [hidx, ih r' c (start + pitch) (by omega) hc]
      rw [show start + pitch + r' * pitch + 2 * c =
            start + (r' + 1) * pitch + 2 * c from by
        have hsm : (r' + 1) * pitch = r' * pitch + pitch := by ring
        omega]

theorem readPxRow_ok :
    ∀ (w : Nat) (data : List Nat) (s : ByteStream),
      s.pos + 2 * w ≤ s.data.length →
      readPxRow w data s =
        .ok (data ++ pxSeq s.data s.pos w, ⟨s.data, s.pos + 2 * w⟩) := by
  intro w
  induction w with
  | zero =>
    intro data s h
    simp [readPxRow, pxSeq]
  | succ w ih =>
    intro data s h
    have h2 : s.pos + 2 ≤ s.data.length := by omega
    have hu : readU16le s = .ok (le16At s.data s.pos, ⟨s.data, s.pos + 2⟩) := by
      simp [readU16le, h2]
    have hih := ih (data ++ [le16At s.data s.pos]) ⟨s.data, s.pos + 2⟩ (by simp; omega)
    simp only [readPxRow, hu]
    rw [hih]
    simp only [pxSeq, List.append_assoc, List.singleton_append]
    rw [show s.pos + 2 + 2 * w = s.pos + 2 * (w + 1) from by omega]

theorem rimRowsLoop_ok (hd : RimHeader) (hp : hd.pitch < 65536)
    (hwp : 2 * hd.width ≤ hd.pitch) :
    ∀ (rows : Nat) (data : List Nat) (s : ByteStream),
      s.pos + rows * hd.pitch ≤ s.data.length →
      rimRowsLoop hd rows data s =
        .ok (data ++ rowSeq s.data s.pos hd.width hd.pitch rows,
             ⟨s.data, s.pos + rows * hd.pitch⟩) := by
  intro rows
  induction rows with
  | zero => intro data s h; simp [rimRowsLoop, rowSeq]
  | succ r ih =>
    intro data s h
    have hsm : (r + 1) * hd.pitch = r * hd.pitch + hd.pitch := by ring
    have hrow : s.pos + 2 * hd.width ≤ s.data.length := by omega
    have hm1 : (hd.width * 2) % 65536 = hd.width * 2 := Nat.mod_eq_of_lt (by omega)
    have hm2 : hd.pitch % 65536 = hd.pitch := Nat.mod_eq_of_lt hp
    simp only [rimRowsLoop, readPxRow_ok hd.width data s hrow, hm1, hm2]
    by_cases hc : hd.width * 2 = hd.pitch
    · rw [if_neg (by omega)]
      have hih := ih (data ++ pxSeq s.data s.pos hd.width) ⟨s.data, s.pos + 2 * hd.width⟩
        (by simp; omega)
      rw [hih]
      simp only [rowSeq, List.append_assoc]
      rw [show s.pos + 2 * hd.width + r * hd.pitch = s.pos + (r + 1) * hd.pitch from by omega,
          show s.pos + 2 * hd.width = s.pos + hd.pitch from by omega]
    · rw [if_pos (by omega)]
      simp only [seekFromCurrent]
      have hdelta : (hd.pitch + 65536 - hd.width * 2) % 65536 = hd.pitch - hd.width * 2 := by
        omega
      rw [hdelta]
      have hih := ih (data ++ pxSeq s.data s.pos hd.width)
        ⟨s.data, s.pos + 2 * hd.width + (hd.pitch - hd.width * 2)⟩ (by simp; omega)
      rw [hih]
      simp only [rowSeq, List.append_assoc]
      rw [show s.pos + 2 * hd.width + (hd.pitch - hd.width * 2) + r * hd.pitch =
            s.pos + (r + 1) * hd.pitch from by omega,
          show s.pos + 2 * hd.width + (hd.pitch - hd.width * 2) = s.pos + hd.pitch from by omega]

theorem readRgbaRow_ok (fmt : RimFormat) :
    ∀ (w : Nat) (data : List Nat) (s : ByteStream),
      s.pos + 2 * w ≤ s.data.length →
      readRgbaRow fmt w data s =
        .ok (data ++ rgbaPxSeq fmt s.data s.pos w, ⟨s.data, s.pos + 2 * w⟩) := by
  intro w
  induction w with
  | zero =>
    intro data s h
    cases fmt <;> simp [readRgbaRow, rgbaPxSeq]
  | succ w ih =>
    intro data s h
    have h2 : s.pos + 2 ≤ s.data.length := by omega
    have hu : readU16le s = .ok (le16At s.data s.pos, ⟨s.data, s.pos + 2⟩) := by
      simp [readU16le, h2]
    have hih := ih (data ++ pxToRgba fmt (le16At s.data s.pos)) ⟨s.data, s.pos + 2⟩
      (by simp; omega)
    cases fmt <;>
    · simp only [pxToRgba] at hih
      simp only [readRgbaRow, hu]
      rw [hih]
      simp only [rgbaPxSeq, pxToRgba, List.append_assoc, List.cons_append, List.nil_append]
      rw [show s.pos + 2 + 2 * w = s.pos + 2 * (w + 1) from by omega]

theorem rgbaRowsLoop_ok (hd : RimHeader) (hp : hd.pitch < 65536)
    (hwp : 2 * hd.width ≤ hd.pitch) :
    ∀ (rows : Nat) (data : List Nat) (s : ByteStream),
      s.pos + rows * hd.pitch ≤ s.data.length →
      rgbaRowsLoop hd rows data s =
        .ok (data ++ rgbaRowSeq hd.fmt s.data s.pos hd.width hd.pitch rows,
             ⟨s.data, s.pos + rows * hd.pitch⟩) := by
  intro rows
  induction rows with
  | zero => intro data s h; simp [rgbaRowsLoop, rgbaRowSeq]
  | succ r ih =>
    intro data s h
    have hsm : (r + 1) * hd.pitch = r * hd.pitch + hd.pitch := by ring
    have hrow : s.pos + 2 * hd.width ≤ s.data.length := by omega
    have hm1 : (hd.width * 2) % 65536 = hd.width * 2 := Nat.mod_eq_of_lt (by omega)
    have hm2 : hd.pitch % 65536 = hd.pitch := Nat.mod_eq_of_lt hp
    simp only [rgbaRowsLoop, readRgbaRow_ok hd.fmt hd.width data s hrow, hm1, hm2]
    by_cases hc : hd.width * 2 = hd.pitch
    · rw [if_neg (by omega)]
      have hih := ih (data ++ rgbaPxSeq hd.fmt s.data s.pos hd.width)
        ⟨s.data, s.pos + 2 * hd.width⟩ (by simp; omega)
      rw [hih]
      simp only [rgbaRowSeq, List.append_assoc]
      rw [show s.pos + 2 * hd.width + r * hd.pitch = s.pos + (r + 1) * hd.pitch from by omega,
          show s.pos + 2 * hd.width = s.pos + hd.pitch from by omega]
    · rw [if_pos (by omega)]
      simp only [seekFromCurrent]
      have hdelta : (hd.pitch + 65536 - hd.width * 2) % 65536 = hd.pitch - hd.width * 2 := by
        omega
      rw [hdelta]
      have hih := ih (data ++ rgbaPxSeq hd.fmt s.data s.pos hd.width)
        ⟨s.data, s.pos + 2 * hd.width + (hd.pitch - hd.width * 2)⟩ (by simp; omega)
      rw [hih]
      simp only [rgbaRowSeq, List.append_assoc]
      rw [show s.pos + 2 * hd.width + (hd.pitch - hd.width * 2) + r * hd.pitch =
            s.pos + (r + 1) * hd.pitch from by omega,
          show s.pos + 2 * hd.width + (hd.pitch - hd.width * 2) = s.pos + hd.pitch from by omega]

/-! ## Characterizing `RimHeader.from_stream` -/

theorem byteAt_take (data : List Nat) (n i : Nat) (h : i < n) :
    byteAt (data.take n) i = byteAt data i := by
  simp only [byteAt, List.getD_eq_getElem?_getD, List.getElem?_take, if_pos h]

theorem le16At_take (data : List Nat) (n i : Nat) (h : i + 2 ≤ n) :
    le16At (data.take n) i = le16At data i := by
  simp only [le16At, byteAt_take data n i (by omega), byteAt_take data n (i + 1) (by omega)]

theorem le32At_take (data : List Nat) (n i : Nat) (h : i + 4 ≤ n) :
    le32At (data.take n) i = le32At data i := by
  simp only [le32At, byteAt_take data n i (by omega), byteAt_take data n (i + 1) (by omega),
    byteAt_take data n (i + 2) (by omega), byteAt_take data n (i + 3) (by omega)]

/-- What `RimHeader::from_stream` does on any stream holding at least a
16-byte header with a valid signature: the outcome is decided entirely by
the format code at offset 14 — the fields are passed through unvalidated. -/
theorem rim_from_stream_eq (s : ByteStream)
    (hlen : s.pos + 16 ≤ s.data.length)
    (hsig : le32At s.data s.pos = RIM_SIGNATURE) :
    RimHeader.from_stream s =
      (match le16At s.data (s.pos + 14) with
       | 0 => .ok (⟨le32At s.data (s.pos + 4), le16At s.data (s.pos + 8),
           le16At s.data (s.pos + 10), le16At s.data (s.pos + 12), .RGB555⟩,
           ⟨s.data, s.pos + 16⟩)
       | 1 => .ok (⟨le32At s.data (s.pos + 4), le16At s.data (s.pos + 8),
           le16At s.data (s.pos + 10), le16At s.data (s.pos + 12), .RGB565⟩,
           ⟨s.data, s.pos + 16⟩)
       | _ => .error .unknownPixelFormat) := by
  have e1 : readU32le s = .ok (le32At s.data s.pos, ⟨s.data, s.pos + 4⟩) := by
    simp [readU32le, show s.pos + 4 ≤ s.data.length from by omega]
  have e2 : readU32le ⟨s.data, s.pos + 4⟩ =
      .ok (le32At s.data (s.pos + 4), ⟨s.data, s.pos + 4 + 4⟩) := by
    simp [readU32le, show s.pos + 4 + 4 ≤ s.data.length from by omega]
  have e3 : readU16le ⟨s.data, s.pos + 4 + 4⟩ =
      .ok (le16At s.data (s.pos + 8), ⟨s.data, s.pos + 4 + 4 + 2⟩) := by
    simp [readU16le, show s.pos + 4 + 4 + 2 ≤ s.data.length from by omega]
  have e4 : readU16le ⟨s.data, s.pos + 4 + 4 + 2⟩ =
      .ok (le16At s.data (s.pos + 10), ⟨s.data, s.pos + 4 + 4 + 2 + 2⟩) := by
    simp [readU16le, show s.pos + 4 + 4 + 2 + 2 ≤ s.data.length from by omega]
  have e5 : readU16le ⟨s.data, s.pos + 4 + 4 + 2 + 2⟩ =
      .ok (le16At s.data (s.pos + 12), ⟨s.data, s.pos + 4 + 4 + 2 + 2 + 2⟩) := by
    simp [readU16le, show s.pos + 4 + 4 + 2 + 2 + 2 ≤ s.data.length from by omega]
  have e6 : readU16le ⟨s.data, s.pos + 4 + 4 + 2 + 2 + 2⟩ =
      .ok (le16At s.data (s.pos + 14), ⟨s.data, s.pos + 4 + 4 + 2 + 2 + 2 + 2⟩) := by
    simp [readU16le, show s.pos + 4 + 4 + 2 + 2 + 2 + 2 ≤ s.data.length from by omega]
  simp only [RimHeader.from_stream, e1, e2, e3, e4, e5, e6, hsig]
  rw [if_neg (fun hne => hne rfl)]

/-! ## Concrete RIM inputs -/

/-- A 1×1 RGB565 image header (pitch 2 = width·2). -/
def hdC1 : RimHeader := ⟨0, 1, 1, 2, .RGB565⟩

/-- The single packed pixel `0xF800` (red = 31, green = 0, blue = 0), as
little-endian bytes. -/
def pxRedBytes : List Nat := [0x00, 0xF8]

/-- A well-formed 16-byte RIM header whose fields are width 2, height 1,
pitch 1 and format code 0: `pitch < width * 2`. -/
def exC7bytes : List Nat :=
  [82, 73, 77, 70] ++ [0, 0, 0, 0] ++ [2, 0] ++ [1, 0] ++ [1, 0] ++ [0, 0]

/-- A well-formed 16-byte RIM header with format code 2 (unknown), followed
by two junk bytes that must never be read. -/
def exC9bytes : List Nat :=
  [82, 73, 77, 70] ++ [0, 0, 0, 0] ++ [1, 0] ++ [1, 0] ++ [2, 0] ++ [2, 0] ++ [7, 7]

/-- A 4×2 RGB565 header with pitch 10: two padding bytes per row. -/
def hdC4 : RimHeader := ⟨0, 4, 2, 10, .RGB565⟩

/-- Pixel data for `hdC4`: rows `[1,2,3,4]` and `[5,6,7,8]`, each row
followed by two `0xAA` sentinel padding bytes. -/
def exC4bytes : List Nat :=
  [1, 0, 2, 0, 3, 0, 4, 0, 0xAA, 0xAA, 5, 0, 6, 0, 7, 0, 8, 0, 0xAA, 0xAA]

/-- C1: the claim says the RGB565→RGBA conversion takes red from bits 11–15,
so packed `0xF800` maps to `[248,0,0,255]`.  `convert_565_888` (main.rs)
does; but `RimHeader::read_rgba_bytes` (lib.rs) shifts red by only 10 and
produces `[240,0,0,255]` on the very same pixel, contradicting the claim and
the `RimFormat` documentation ("5 red, 6 green, and 5 blue bits"). -/
theorem c1_rgb565_red_bits :
    convert_565_888 ⟨pxRedBytes, 0⟩ = .ok ([248, 0, 0, 255], ⟨pxRedBytes, 2⟩) ∧
    RimHeader.read_rgba_bytes hdC1 ⟨pxRedBytes, 0⟩ =
      .ok ([240, 0, 0, 255], ⟨pxRedBytes, 2⟩) ∧
    ([240, 0, 0, 255] : List Nat) ≠ [248, 0, 0, 255] := by
  refine ⟨rfl, rfl, by decide⟩

/-- C4: with `pitch ≥ width*2` and enough bytes, both RIM pixel decoders
read exactly `width` little-endian 16-bit pixels per row and then skip
`pitch - width*2` bytes, so the output is the contiguous row-major sequence
of `width*height` pixels and the pixel at `(r, c)` comes from the two bytes
at row offset `2·c` — never from the padding bytes. -/
theorem c4_pitch_rows_decode (hd : RimHeader) (s : ByteStream)
    (hp : hd.pitch < 65536) (hwp : 2 * hd.width ≤ hd.pitch)
    (hlen : s.pos + hd.height * hd.pitch ≤ s.data.length) :
    hd.read_contiguous s =
      .ok (rowSeq s.data s.pos hd.width hd.pitch hd.height,
           ⟨s.data, s.pos + hd.height * hd.pitch⟩) ∧
    hd.read_rgba_bytes s =
      .ok (rgbaRowSeq hd.fmt s.data s.pos hd.width hd.pitch hd.height,
           ⟨s.data, s.pos + hd.height * hd.pitch⟩) ∧
    (rowSeq s.data s.pos hd.width hd.pitch hd.height).length = hd.height * hd.width ∧
    (∀ r c, r < hd.height → c < hd.width →
      (rowSeq s.data s.pos hd.width hd.pitch hd.height)[r * hd.width + c]? =
        some (le16At s.data (s.pos + r * hd.pitch + 2 * c))) := by
  refine ⟨?_, ?_, ?_, ?_⟩
  · have h := rimRowsLoop_ok hd hp hwp hd.height [] s hlen
    simpa [RimHeader.read_contiguous] using h
  · have h := rgbaRowsLoop_ok hd hp hwp hd.height [] s hlen
    simpa [RimHeader.read_rgba_bytes] using h
  · exact rowSeq_length s.data hd.width hd.pitch hd.height s.pos
  · intro r c hr hc
    exact rowSeq_getElem? s.data hd.width hd.pitch hd.height r c s.pos hr hc

/-- Witness for C4 at the spec's own test vector (width 4, pitch 10,
`0xAA` sentinels): the hypotheses hold and the decode is the sentinel-free
row-major pixel list `[1,…,8]`. -/
theorem c4_pitch_rows_decode_witness :
    (hdC4.pitch < 65536 ∧ 2 * hdC4.width ≤ hdC4.pitch ∧
      (0 : Nat) + hdC4.height * hdC4.pitch ≤ exC4bytes.length) ∧
    rowSeq exC4bytes 0 hdC4.width hdC4.pitch hdC4.height = [1, 2, 3, 4, 5, 6, 7, 8] ∧
    (hdC4.read_contiguous ⟨exC4bytes, 0⟩ =
      .ok (rowSeq exC4bytes 0 hdC4.width hdC4.pitch hdC4.height,
           ⟨exC4bytes, 0 + hdC4.height * hdC4.pitch⟩) ∧
    hdC4.read_rgba_bytes ⟨exC4bytes, 0⟩ =
      .ok (rgbaRowSeq hdC4.fmt exC4bytes 0 hdC4.width hdC4.pitch hdC4.height,
           ⟨exC4bytes, 0 + hdC4.height * hdC4.pitch⟩) ∧
    (rowSeq exC4bytes 0 hdC4.width hdC4.pitch hdC4.height).length = hdC4.height * hdC4.width ∧
    (∀ r c, r < hdC4.height → c < hdC4.width →
      (rowSeq exC4bytes 0 hdC4.width hdC4.pitch hdC4.height)[r * hdC4.width + c]? =
        some (le16At exC4bytes (0 + r * hdC4.pitch + 2 * c)))) :=
  ⟨⟨by decide, by decide, by decide⟩, by decide,
    c4_pitch_rows_decode hdC4 ⟨exC4bytes, 0⟩ (by decide) (by decide) (by decide)⟩

/-- C5: the claim says a truncated stream during pixel decoding makes
`read_rgba_bytes` return the short-read I/O error; in fact the source
`.unwrap()`s each pixel read, so the truncated 1×1 image panics
(`.panicked`, not the `.shortRead` error) — while `read_contiguous`, which
uses `?`, does propagate `.shortRead`. -/
theorem c5_truncated_pixel_read_panics :
    RimHeader.read_rgba_bytes hdC1 ⟨[], 0⟩ = .error .panicked ∧
    RimHeader.read_contiguous hdC1 ⟨[], 0⟩ = .error .shortRead ∧
    DecodeErr.panicked ≠ DecodeErr.shortRead := by
  refine ⟨rfl, rfl, by decide⟩

/-- C7 counterexample: a stream whose header has width 2 but pitch 1 is
accepted by `RimHeader::from_stream` — the claim that such streams are
rejected is false. -/
theorem c7_pitch_unchecked_counterexample :
    RimHeader.from_stream ⟨exC7bytes, 0⟩ =
      .ok (⟨0, 2, 1, 1, .RGB555⟩, ⟨exC7bytes, 16⟩) ∧
    ¬ ((1 : Nat) ≥ 2 * 2) := by
  refine ⟨rfl, by decide⟩

/-- C7 amended: `RimHeader::from_stream` validates only the signature and
the format code; any 16-byte header with a valid signature and format code
0 or 1 is accepted with its fields passed through unvalidated — no
`pitch ≥ width*2` check is performed. -/
theorem c7_header_accepted_without_pitch_check (s : ByteStream)
    (hlen : s.pos + 16 ≤ s.data.length)
    (hsig : le32At s.data s.pos = RIM_SIGNATURE)
    (hfmt : le16At s.data (s.pos + 14) = 0 ∨ le16At s.data (s.pos + 14) = 1) :
    RimHeader.from_stream s =
      .ok (⟨le32At s.data (s.pos + 4), le16At s.data (s.pos + 8),
            le16At s.data (s.pos + 10), le16At s.data (s.pos + 12),
            if le16At s.data (s.pos + 14) = 0 then .RGB555 else .RGB565⟩,
           ⟨s.data, s.pos + 16⟩) := by
  rw [rim_from_stream_eq s hlen hsig]
  rcases hfmt with h0 | h1
  · rw [h0, if_pos rfl]
  · rw [h1, if_neg (by omega)]

/-- Witness for the amended C7 at the concrete pitch-violating header. -/
theorem c7_header_accepted_without_pitch_check_witness :
    ((0 : Nat) + 16 ≤ exC7bytes.length ∧ le32At exC7bytes 0 = RIM_SIGNATURE ∧
      le16At exC7bytes (0 + 14) = 0) ∧
    RimHeader.from_stream ⟨exC7bytes, 0⟩ =
      .ok (⟨le32At exC7bytes (0 + 4), le16At exC7bytes (0 + 8),
            le16At exC7bytes (0 + 10), le16At exC7bytes (0 + 12),
            if le16At exC7bytes (0 + 14) = 0 then .RGB555 else .RGB565⟩,
           ⟨exC7bytes, 0 + 16⟩) :=
  ⟨⟨by decide, by decide, by decide⟩,
    c7_header_accepted_without_pitch_check ⟨exC7bytes, 0⟩ (by decide) (by decide)
      (Or.inl (by decide))⟩

/-- C9: on a stream whose 16-byte header has a valid signature but a format
code other than 0 and 1, `RimHeader::from_stream` fails with
`unknownPixelFormat`; and it does so before reading any pixel data — the
result is unchanged when every byte after the 16-byte header is removed. -/
theorem c9_unknown_format_rejected_early (s : ByteStream)
    (hlen : s.pos + 16 ≤ s.data.length)
    (hsig : le32At s.data s.pos = RIM_SIGNATURE)
    (h0 : le16At s.data (s.pos + 14) ≠ 0)
    (h1 : le16At s.data (s.pos + 14) ≠ 1) :
    RimHeader.from_stream s = .error .unknownPixelFormat ∧
    RimHeader.from_stream ⟨s.data.take (s.pos + 16), s.pos⟩ = .error .unknownPixelFormat := by
  have hmain : ∀ t : ByteStream, t.pos + 16 ≤ t.data.length →
      le32At t.data t.pos = RIM_SIGNATURE →
      le16At t.data (t.pos + 14) ≠ 0 → le16At t.data (t.pos + 14) ≠ 1 →
      RimHeader.from_stream t = .error .unknownPixelFormat := by
    intro t htlen htsig ht0 ht1
    rw [rim_from_stream_eq t htlen htsig]
    split
    · exact absurd (by assumption) ht0
    · exact absurd (by assumption) ht1
    · rfl
  refine ⟨hmain s hlen hsig h0 h1, ?_⟩
  have hlen2 : s.pos + 16 ≤ (s.data.take (s.pos + 16)).length := by
    rw [List.length_take]
    omega
  have hsig2 : le32At (s.data.take (s.pos + 16)) s.pos = RIM_SIGNATURE := by
    rw [le32At_take s.data (s.pos + 16) s.pos (by omega)]
    exact hsig
  have hfmt2 : le16At (s.data.take (s.pos + 16)) (s.pos + 14) = le16At s.data (s.pos + 14) :=
    le16At_take s.data (s.pos + 16) (s.pos + 14) (by omega)
  exact hmain ⟨s.data.take (s.pos + 16), s.pos⟩ hlen2 hsig2
    (by rw [hfmt2]; exact h0) (by rw [hfmt2]; exact h1)

/-- Witness for C9 at the concrete format-code-2 header. -/
theorem c9_unknown_format_rejected_early_witness :
    ((0 : Nat) + 16 ≤ exC9bytes.length ∧ le32At exC9bytes 0 = RIM_SIGNATURE ∧
      le16At exC9bytes (0 + 14) = 2) ∧
    (RimHeader.from_stream ⟨exC9bytes, 0⟩ = .error .unknownPixelFormat ∧
     RimHeader.from_stream ⟨exC9bytes.take (0 + 16), 0⟩ = .error .unknownPixelFormat) :=
  ⟨⟨by decide, by decide, by decide⟩,
    c9_unknown_format_rejected_early ⟨exC9bytes, 0⟩ (by decide) (by decide)
      (by decide) (by decide)⟩

/-! ## Decoded names are non-empty and never start with NUL -/

theorem utf8Go_head (fuel b : Nat) (rest : List Nat) (hb : b ≠ 0) :
    utf8Go (fuel + 1) (b :: rest) ≠ [] ∧
    (utf8Go (fuel + 1) (b :: rest)).headD 0 ≠ 0 := by
  by_cases h1 : b < 128
  · simp only [utf8Go, if_pos h1]
    exact ⟨by simp, by simpa using hb⟩
  · by_cases h2 : b < 194
    · simp only [utf8Go, if_neg h1, if_pos h2]
      exact ⟨by simp, by simp⟩
    · by_cases h3 : b < 224
      · simp only [utf8Go, if_neg h1, if_neg h2, if_pos h3]
        match rest with
        | [] => exact ⟨by simp, by simp⟩
        | b2 :: rest2 =>
          by_cases hc : utf8Cont b2
          · simp only [if_pos hc]
            refine ⟨by simp, ?_⟩
            simp only [List.headD_cons]
            omega
          · simp only [if_neg hc]
            exact ⟨by simp, by simp⟩
      · by_cases h4 : b < 240
        · simp only [utf8Go, if_neg h1, if_neg h2, if_neg h3, if_pos h4]
          match rest with
          | [] => exact ⟨by simp, by simp⟩
          | b2 :: rest2 =>
            by_cases hc2 : (if b = 224 then 160 ≤ b2 && b2 < 192
                else if b = 237 then 128 ≤ b2 && b2 < 160
                else utf8Cont b2)
            · simp only [if_pos hc2]
              match rest2 with
              | [] => exact ⟨by simp, by simp⟩
              | b3 :: rest3 =>
                by_cases hc3 : utf8Cont b3
                · simp only [if_pos hc3]
                  refine ⟨by simp, ?_⟩
                  simp only [List.headD_cons]
                  have hb2 : 128 ≤ b2 ∧ b2 < 192 ∧ (b = 224 → 160 ≤ b2) := by
                    by_cases hb224 : b = 224
                    · rw [if_pos hb224] at hc2
                      simp only [Bool.and_eq_true, decide_eq_true_eq] at hc2
                      exact ⟨by omega, by omega, fun _ => hc2.1⟩
                    · rw [if_neg hb224] at hc2
                      by_cases hb237 : b = 237
                      · rw [if_pos hb237] at hc2
                        simp only [Bool.and_eq_true, decide_eq_true_eq] at hc2
                        exact ⟨by omega, by omega, by omega⟩
                      · rw [if_neg hb237] at hc2
                        simp only [utf8Cont, Bool.and_eq_true, decide_eq_true_eq] at hc2
                        exact ⟨by omega, by omega, by omega⟩
                  obtain ⟨hb2a, hb2b, hb2c⟩ := hb2
                  by_cases hb224 : b = 224
                  · have := hb2c hb224
                    omega
                  · have : 1 ≤ b % 16 := by omega
                    omega
                · simp only [if_neg hc3]
                  exact ⟨by simp, by simp⟩
            · simp only [if_neg hc2]
              exact ⟨by simp, by simp⟩
        · by_cases h5 : b < 245
          · simp only [utf8Go, if_neg h1, if_neg h2, if_neg h3, if_neg h4, if_pos h5]
            match rest with
            | [] => exact ⟨by simp, by simp⟩
            | b2 :: rest2 =>
              by_cases hc2 : (if b = 240 then 144 ≤ b2 && b2 < 192
                  else if b = 244 then 128 ≤ b2 && b2 < 144
                  else utf8Cont b2)
              · simp only [if_pos hc2]
                match rest2 with
                | [] => exact ⟨by simp, by simp⟩
                | b3 :: rest3 =>
                  by_cases hc3 : utf8Cont b3
                  · simp only [if_pos hc3]
                    match rest3 with
                    | [] => exact ⟨by simp, by simp⟩
                    | b4 :: rest4 =>
                      by_cases hc4 : utf8Cont b4
                      · simp only [if_pos hc4]
                        refine ⟨by simp, ?_⟩
                        simp only [List.headD_cons]
                        have hb2 : 128 ≤ b2 ∧ b2 < 192 ∧ (b = 240 → 144 ≤ b2) := by
                          by_cases hb240 : b = 240
                          · rw [if_pos hb240] at hc2
                            simp only [Bool.and_eq_true, decide_eq_true_eq] at hc2
                            exact ⟨by omega, by omega, fun _ => hc2.1⟩
                          · rw [if_neg hb240] at hc2
                            by_cases hb244 : b = 244
                            · rw [if_pos hb244] at hc2
                              simp only [Bool.and_eq_true, decide_eq_true_eq] at hc2
                              exact ⟨by omega, by omega, by omega⟩
                            · rw [if_neg hb244] at hc2
                              simp only [utf8Cont, Bool.and_eq_true, decide_eq_true_eq] at hc2
                              exact ⟨by omega, by omega, by omega⟩
                        obtain ⟨hb2a, hb2b, hb2c⟩ := hb2
                        by_cases hb240 : b = 240
                        · have := hb2c hb240
                          omega
                        · have : 1 ≤ b % 8 := by omega
                          omega
                      · simp only [if_neg hc4]
                        exact ⟨by simp, by simp⟩
                  · simp only [if_neg hc3]
                    exact ⟨by simp, by simp⟩
              · simp only [if_neg hc2]
                exact ⟨by simp, by simp⟩
          · simp only [utf8Go, if_neg h1, if_neg h2, if_neg h3, if_neg h4, if_neg h5]
            exact ⟨by simp, by simp⟩

theorem dropTrailingZeros_head (c : Nat) (cs : List Nat) (hc : c ≠ 0) :
    dropTrailingZeros (c :: cs) ≠ [] ∧
    (dropTrailingZeros (c :: cs)).head? = some c := by
  cases hE : dropTrailingZeros cs with
  | nil =>
    simp only [dropTrailingZeros, hE, if_neg hc]
    exact ⟨by simp, rfl⟩
  | cons x xs =>
    simp only [dropTrailingZeros, hE]
    exact ⟨by simp, rfl⟩

theorem trimZeros_head (l : List Nat) (hne : l ≠ []) (hhd : l.headD 0 ≠ 0) :
    trimZeros l ≠ [] ∧ (trimZeros l).head? ≠ some 0 := by
  match l with
  | [] => exact absurd rfl hne
  | c :: cs =>
    simp only [List.headD_cons] at hhd
    have hdw : (c :: cs).dropWhile (fun x => x == 0) = c :: cs := by
      rw [List.dropWhile_cons_of_neg]
      simp [hhd]
    rw [trimZeros, hdw]
    obtain ⟨h1, h2⟩ := dropTrailingZeros_head c cs hhd
    refine ⟨h1, ?_⟩
    rw [h2]
    simp [hhd]

/-- The name stored for a raw name field whose first byte `b` is non-zero
is non-empty and does not start with a NUL scalar. -/
theorem zfs_name_ok (raw : List Nat) (b : Nat) (hh : raw.head? = some b) (hb : b ≠ 0) :
    trimZeros (utf8LossyScalars raw) ≠ [] ∧
    (trimZeros (utf8LossyScalars raw)).head? ≠ some 0 := by
  match raw with
  | [] => simp at hh
  | x :: xs =>
    simp only [List.head?_cons, Option.some.injEq] at hh
    subst hh
    have h := utf8Go_head xs.length x xs hb
    have hlen : (x :: xs).length = xs.length + 1 := by simp
    rw [utf8LossyScalars, hlen]
    exact trimZeros_head _ h.1 h.2

/-! ## The ZFS entry loop invariant -/

/-- Master invariant of the traced entry loop: a successful run appends some
`new` entries (at most `rem`); it preserves the header counts of the trace;
it records a table jump exactly for the appended indices `j` with
`j % fpt = fpt - 1`; it either runs all `rem` iterations with the stop
marker untouched, or stops early on a name field whose first byte is zero;
and every appended entry has a non-empty name not starting with NUL. -/
theorem zfsLoopT_spec (maxLen fpt : Nat) :
    ∀ (rem i nto : Nat) (files files' : List ZfsEntry) (tr tr' : ZfsTrace)
      (s s' : ByteStream),
      zfsLoopT maxLen fpt i rem nto files tr s = .ok (files', tr', s') →
      ∃ new : List ZfsEntry,
        files' = files ++ new ∧
        new.length ≤ rem ∧
        tr'.numFiles = tr.numFiles ∧
        tr'.filesPerTable = tr.filesPerTable ∧
        tr'.jumps = tr.jumps ++
          (List.range' i new.length).filter (fun j => decide (j % fpt = fpt - 1)) ∧
        ((tr'.stopped = tr.stopped ∧ new.length = rem) ∨
          (∃ raw, tr'.stopped = some raw ∧ raw.head? = some 0 ∧ new.length < rem)) ∧
        (∀ e ∈ new, e.name ≠ [] ∧ e.name.head? ≠ some 0) := by
  intro rem
  induction rem with
  | zero =>
    intro i nto files files' tr tr' s s' hEq
    simp only [zfsLoopT, Except.ok.injEq, Prod.mk.injEq] at hEq
    obtain ⟨h1, h2, h3⟩ := hEq
    subst h1; subst h2
    exact ⟨[], by simp, by simp, rfl, rfl, by simp [List.range'], Or.inl ⟨rfl, rfl⟩, by simp⟩
  | succ rem ih =>
    intro i nto files files' tr tr' s s' hEq
    rw [zfsLoopT] at hEq
    cases hx : readExact maxLen s with
    | error e => rw [hx] at hEq; exact absurd hEq (by simp)
    | ok v =>
      obtain ⟨rawName, s1⟩ := v
      rw [hx] at hEq
      cases hh : rawName.head? with
      | none =>
        simp only [hh] at hEq
        exact absurd hEq (by simp)
      | some b0 =>
        simp only [hh] at hEq
        by_cases hb0 : b0 = 0
        · rw [if_pos hb0] at hEq
          simp only [Except.ok.injEq, Prod.mk.injEq] at hEq
          obtain ⟨h1, h2, h3⟩ := hEq
          subst h1; subst h3
          refine ⟨[], by simp, by simp, by rw [← h2], by rw [← h2], ?_, ?_, by simp⟩
          · rw [← h2]; simp [List.range']
          · exact Or.inr ⟨rawName, by rw [← h2], by rw [hh, hb0],
              by simp only [List.length_nil]; omega⟩
        · rw [if_neg hb0] at hEq
          cases ho1 : readU32le s1 with
          | error e => rw [ho1] at hEq; exact absurd hEq (by simp)
          | ok v1 =>
            obtain ⟨data_offset, s2⟩ := v1
            simp only [ho1] at hEq
            cases ho2 : readU32le s2 with
            | error e => rw [ho2] at hEq; exact absurd hEq (by simp)
            | ok v2 =>
              obtain ⟨unk3, s3⟩ := v2
              simp only [ho2] at hEq
              cases ho3 : readU32le s3 with
              | error e => rw [ho3] at hEq; exact absurd hEq (by simp)
              | ok v3 =>
                obtain ⟨data_size, s4⟩ := v3
                simp only [ho3] at hEq
                cases ho4 : readU32le s4 with
                | error e => rw [ho4] at hEq; exact absurd hEq (by simp)
                | ok v4 =>
                  obtain ⟨timestamp, s5⟩ := v4
                  simp only [ho4] at hEq
                  cases ho5 : readU32le s5 with
                  | error e => rw [ho5] at hEq; exact absurd hEq (by simp)
                  | ok v5 =>
                    obtain ⟨flags, s6⟩ := v5
                    simp only [ho5] at hEq
                    by_cases hfpt : fpt = 0
                    · rw [if_pos hfpt] at hEq
                      exact absurd hEq (by simp)
                    · rw [if_neg hfpt] at hEq
                      have hname := zfs_name_ok rawName b0 hh hb0
                      by_cases hmod : i % fpt = fpt - 1
                      · rw [if_pos hmod] at hEq
                        simp only [seekFromStart] at hEq
                        cases ho6 : readU32le ⟨s6.data, nto⟩ with
                        | error e => rw [ho6] at hEq; exact absurd hEq (by simp)
                        | ok v6 =>
                          obtain ⟨nto2, s7⟩ := v6
                          simp only [ho6] at hEq
                          obtain ⟨new', hf, hlen, hnf, hft, hj, hst, hnm⟩ :=
                            ih (i + 1) nto2 _ files' _ tr' s7 s' hEq
                          refine ⟨⟨trimZeros (utf8LossyScalars rawName),
                              data_offset, data_size, timestamp, flags⟩ :: new',
                            by simpa using hf, by simpa using hlen, by simpa using hnf,
                            by simpa using hft, ?_, ?_, ?_⟩
                          · simp only [hj]
                            simp only [List.length_cons, List.range'_succ]
                            rw [List.filter_cons_of_pos (by simpa using hmod)]
                            simp
                          · rcases hst with ⟨hse, hne⟩ | ⟨raw, hso, hr0, hlt⟩
                            · exact Or.inl ⟨by simpa using hse, by simpa using hne⟩
                            · exact Or.inr ⟨raw, hso, hr0, by simpa using hlt⟩
                          · intro e he
                            rcases List.mem_cons.mp he with rfl | hmem
                            · exact hname
                            · exact hnm e hmem
                      · rw [if_neg hmod] at hEq
                        obtain ⟨new', hf, hlen, hnf, hft, hj, hst, hnm⟩ :=
                          ih (i + 1) nto _ files' _ tr' s6 s' hEq
                        refine ⟨⟨trimZeros (utf8LossyScalars rawName),
                            data_offset, data_size, timestamp, flags⟩ :: new',
                          by simpa using hf, by simpa using hlen, hnf, hft, ?_, ?_, ?_⟩
                        · simp only [hj]
                          simp only [List.length_cons, List.range'_succ]
                          rw [List.filter_cons_of_neg (by simpa using hmod)]
                        · rcases hst with ⟨hse, hne⟩ | ⟨raw, hso, hr0, hlt⟩
                          · exact Or.inl ⟨hse, by simpa using hne⟩
                          · exact Or.inr ⟨raw, hso, hr0, by simpa using hlt⟩
                        · intro e he
                          rcases List.mem_cons.mp he with rfl | hmem
                          · exact hname
                          · exact hnm e hmem

/-- Inversion of a successful `from_streamT` run: the result is produced by
the entry loop started at index 0 on an empty listing and a fresh trace
holding the header's declared counts. -/
theorem from_streamT_inv (s : ByteStream) (h : ZfsHeaders) (tr : ZfsTrace) (s' : ByteStream)
    (hEq : ZfsHeaders.from_streamT s = .ok (h, tr, s')) :
    ∃ maxLen fpt num nto tOff s0,
      zfsLoopT maxLen fpt 0 num nto [] ⟨num, fpt, [tOff], [], none⟩ s0 =
        .ok (h.files, tr, s') := by
  rw [ZfsHeaders.from_streamT] at hEq
  cases h1 : readU32le s with
  | error e => rw [h1] at hEq; exact absurd hEq (by simp)
  | ok v1 =>
    obtain ⟨sig, s1⟩ := v1
    simp only [h1] at hEq
    by_cases hsig : sig = ZFS_SIGNATURE
    · rw [if_neg (fun hn => hn hsig)] at hEq
      cases h2 : readU32le s1 with
      | error e => rw [h2] at hEq; exact absurd hEq (by simp)
      | ok v2 =>
        obtain ⟨version, s2⟩ := v2
        simp only [h2] at hEq
        cases h3 : readU32le s2 with
        | error e => rw [h3] at hEq; exact absurd hEq (by simp)
        | ok v3 =>
          obtain ⟨maxLen, s3⟩ := v3
          simp only [h3] at hEq
          cases h4 : readU32le s3 with
          | error e => rw [h4] at hEq; exact absurd hEq (by simp)
          | ok v4 =>
            obtain ⟨fpt, s4⟩ := v4
            simp only [h4] at hEq
            cases h5 : readU32le s4 with
            | error e => rw [h5] at hEq; exact absurd hEq (by simp)
            | ok v5 =>
              obtain ⟨num, s5⟩ := v5
              simp only [h5] at hEq
              cases h6 : readU32le s5 with
              | error e => rw [h6] at hEq; exact absurd hEq (by simp)
              | ok v6 =>
                obtain ⟨unk2, s6⟩ := v6
                simp only [h6] at hEq
                cases h7 : readU32le s6 with
                | error e => rw [h7] at hEq; exact absurd hEq (by simp)
                | ok v7 =>
                  obtain ⟨tOff, s7⟩ := v7
                  simp only [h7, seekFromStart] at hEq
                  cases h8 : readU32le ⟨s7.data, tOff⟩ with
                  | error e => rw [h8] at hEq; exact absurd hEq (by simp)
                  | ok v8 =>
                    obtain ⟨nto, s8⟩ := v8
                    simp only [h8] at hEq
                    cases h9 : zfsLoopT maxLen fpt 0 num nto []
                        ⟨num, fpt, [tOff], [], none⟩ s8 with
                    | error e => rw [h9] at hEq; exact absurd hEq (by simp)
                    | ok v9 =>
                      obtain ⟨files2, tr2, s9⟩ := v9
                      simp only [h9, Except.ok.injEq, Prod.mk.injEq] at hEq
                      obtain ⟨hh, htr, hs⟩ := hEq
                      subst htr; subst hs
                      refine ⟨maxLen, fpt, num, nto, tOff, s8, ?_⟩
                      rw [← hh]
                      exact h9
    · rw [if_pos hsig] at hEq
      exact absurd hEq (by simp)

/-- C2: a successful ZFS directory parse returns exactly the entries read
up to (excluding) the first name field starting with a zero byte, or all
`num_files` entries, whichever comes first: the listing never exceeds the
header's declared count; it reaches the declared count whenever no zero
name was hit; and any shortfall is witnessed by a recorded zero-lead name
field. -/
theorem c2_entry_count (s : ByteStream) (h : ZfsHeaders) (tr : ZfsTrace) (s' : ByteStream)
    (hEq : ZfsHeaders.from_streamT s = .ok (h, tr, s')) :
    h.files.length ≤ tr.numFiles ∧
    (tr.stopped = none → h.files.length = tr.numFiles) ∧
    (h.files.length < tr.numFiles → ∃ raw, tr.stopped = some raw ∧ raw.head? = some 0) := by
  obtain ⟨maxLen, fpt, num, nto, tOff, s0, hloop⟩ := from_streamT_inv s h tr s' hEq
  obtain ⟨new, hf, hlen, hnf, hft, hj, hst, hnm⟩ :=
    zfsLoopT_spec maxLen fpt num 0 nto [] h.files ⟨num, fpt, [tOff], [], none⟩ tr s0 s' hloop
  simp only [List.nil_append] at hf
  have hnum : tr.numFiles = num := hnf
  have hlenf : h.files.length = new.length := by rw [hf]
  rcases hst with ⟨hse, hne⟩ | ⟨raw, hso, hr0, hlt⟩
  · have hstop : tr.stopped = none := hse
    refine ⟨by omega, fun _ => by omega, fun hlt2 => absurd hlt2 (by omega)⟩
  · refine ⟨by omega, fun hn => ?_, fun _ => ⟨raw, hso, hr0⟩⟩
    rw [hn] at hso
    exact absurd hso (by simp)

/-- C3: in any successful ZFS directory parse, a fresh next-table pointer is
read (after appending the entry at index `i`) exactly for those indices with
`i % files_per_table = files_per_table - 1`. -/
theorem c3_table_jumps (s : ByteStream) (h : ZfsHeaders) (tr : ZfsTrace) (s' : ByteStream)
    (hEq : ZfsHeaders.from_streamT s = .ok (h, tr, s')) :
    tr.jumps = (List.range h.files.length).filter
      (fun j => decide (j % tr.filesPerTable = tr.filesPerTable - 1)) := by
  obtain ⟨maxLen, fpt, num, nto, tOff, s0, hloop⟩ := from_streamT_inv s h tr s' hEq
  obtain ⟨new, hf, hlen, hnf, hft, hj, hst, hnm⟩ :=
    zfsLoopT_spec maxLen fpt num 0 nto [] h.files ⟨num, fpt, [tOff], [], none⟩ tr s0 s' hloop
  simp only [List.nil_append] at hf
  have hft2 : tr.filesPerTable = fpt := hft
  rw [hft2, hf, List.range_eq_range']
  simpa using hj

/-- C10: every entry of a successfully parsed ZFS listing has a non-empty
name that does not start with a NUL: the loop breaks before appending when
the name field's first byte is zero, and the stored name — the UTF-8-lossy
decoding trimmed of NULs — keeps a non-NUL first scalar. -/
theorem c10_nonempty_names (s : ByteStream) (h : ZfsHeaders) (s' : ByteStream)
    (hEq : ZfsHeaders.from_stream s = .ok (h, s')) :
    ∀ e ∈ h.files, e.name ≠ [] ∧ e.name.head? ≠ some 0 := by
  rw [ZfsHeaders.from_stream] at hEq
  cases hT : ZfsHeaders.from_streamT s with
  | error e => rw [hT] at hEq; exact absurd hEq (by simp)
  | ok v =>
    obtain ⟨h2, tr2, s2⟩ := v
    simp only [hT, Except.ok.injEq, Prod.mk.injEq] at hEq
    obtain ⟨hh, hs⟩ := hEq
    subst hh; subst hs
    obtain ⟨maxLen, fpt, num, nto, tOff, s0, hloop⟩ := from_streamT_inv s h2 tr2 s2 hT
    obtain ⟨new, hf, hlen, hnf, hft, hj, hst, hnm⟩ :=
      zfsLoopT_spec maxLen fpt num 0 nto [] h2.files ⟨num, fpt, [tOff], [], none⟩ tr2 s0 s2 hloop
    simp only [List.nil_append] at hf
    rw [hf]
    exact hnm

/-! ## Concrete ZFS inputs -/

/-- A ZFS archive with `max_filename_len = 2`, `files_per_table = 2` and a
declared count of 3, whose second entry slot's name field starts with a
zero byte: the parse stops after one entry. -/
def exC2bytes : List Nat :=
  [90, 70, 83, 51] ++ [1, 0, 0, 0] ++ [2, 0, 0, 0] ++ [2, 0, 0, 0] ++ [3, 0, 0, 0] ++
    [0, 0, 0, 0] ++ [28, 0, 0, 0] ++ [99, 0, 0, 0] ++ [88, 0] ++ List.replicate 20 0 ++ [0, 0]

/-- The listing parsed from `exC2bytes`. -/
def outC2 : ZfsHeaders := ⟨1, 2, [⟨[88], 0, 0, 0, 0⟩]⟩

/-- The trace of parsing `exC2bytes`. -/
def trC2 : ZfsTrace := ⟨3, 2, [28], [], some [0, 0]⟩

/-- A ZFS archive with `files_per_table = 2` and 5 entries named
`A`–`E`, spread over three chained table pages at offsets 28, 76 and 124. -/
def exC3bytes : List Nat :=
  [90, 70, 83, 51] ++ [1, 0, 0, 0] ++ [2, 0, 0, 0] ++ [2, 0, 0, 0] ++ [5, 0, 0, 0] ++
    [0, 0, 0, 0] ++ [28, 0, 0, 0] ++
    [76, 0, 0, 0] ++ [65, 0] ++ List.replicate 20 0 ++ [66, 0] ++ List.replicate 20 0 ++
    [124, 0, 0, 0] ++ [67, 0] ++ List.replicate 20 0 ++ [68, 0] ++ List.replicate 20 0 ++
    [0, 0, 0, 0] ++ [69, 0] ++ List.replicate 20 0

/-- The listing parsed from `exC3bytes`. -/
def outC3 : ZfsHeaders :=
  ⟨1, 2, [⟨[65], 0, 0, 0, 0⟩, ⟨[66], 0, 0, 0, 0⟩, ⟨[67], 0, 0, 0, 0⟩,
          ⟨[68], 0, 0, 0, 0⟩, ⟨[69], 0, 0, 0, 0⟩]⟩

/-- The trace of parsing `exC3bytes`: three table pages visited, next-table
pointers re-read after the entries at indices 1 and 3. -/
def trC3 : ZfsTrace := ⟨5, 2, [28, 76, 124], [1, 3], none⟩

/-- A ZFS archive whose header declares `files_per_table = 0` and one file,
with a valid non-padding first entry. -/
def exC6bytes : List Nat :=
  [90, 70, 83, 51] ++ [1, 0, 0, 0] ++ [1, 0, 0, 0] ++ [0, 0, 0, 0] ++ [1, 0, 0, 0] ++
    [0, 0, 0, 0] ++ [28, 0, 0, 0] ++ [0, 0, 0, 0] ++ [65] ++ List.replicate 20 0

/-- Like `exC6bytes` but declaring zero files. -/
def exC6bBytes : List Nat :=
  [90, 70, 83, 51] ++ [1, 0, 0, 0] ++ [1, 0, 0, 0] ++ [0, 0, 0, 0] ++ [0, 0, 0, 0] ++
    [0, 0, 0, 0] ++ [28, 0, 0, 0] ++ [0, 0, 0, 0]

/-- Witness for C2 on `exC2bytes`: the parse succeeds with one entry and the
entry-count discipline instantiates concretely. -/
theorem c2_entry_count_witness :
    ZfsHeaders.from_streamT ⟨exC2bytes, 0⟩ = .ok (outC2, trC2, ⟨exC2bytes, 56⟩) ∧
    outC2.files.length = 1 ∧ trC2.numFiles = 3 ∧
    (outC2.files.length ≤ trC2.numFiles ∧
      (trC2.stopped = none → outC2.files.length = trC2.numFiles) ∧
      (outC2.files.length < trC2.numFiles →
        ∃ raw, trC2.stopped = some raw ∧ raw.head? = some 0)) :=
  ⟨rfl, rfl, rfl,
    c2_entry_count ⟨exC2bytes, 0⟩ outC2 trC2 ⟨exC2bytes, 56⟩ rfl⟩

set_option maxRecDepth 8192 in
/-- Witness for C3 on `exC3bytes` (entries-per-table 2, five entries): the
run visits the three distinct pages 28, 76, 124 and re-reads the
next-table pointer exactly after entries 1 and 3 (the 2nd and 4th). -/
theorem c3_table_jumps_witness :
    ZfsHeaders.from_streamT ⟨exC3bytes, 0⟩ = .ok (outC3, trC3, ⟨exC3bytes, 150⟩) ∧
    trC3.jumps = [1, 3] ∧ trC3.pages = [28, 76, 124] ∧ trC3.pages.Nodup ∧
    trC3.jumps = (List.range outC3.files.length).filter
      (fun j => decide (j % trC3.filesPerTable = trC3.filesPerTable - 1)) :=
  ⟨rfl, rfl, rfl, by decide,
    c3_table_jumps ⟨exC3bytes, 0⟩ outC3 trC3 ⟨exC3bytes, 150⟩ rfl⟩

set_option maxRecDepth 8192 in
/-- Witness for C10 on `exC3bytes`. -/
theorem c10_nonempty_names_witness :
    ZfsHeaders.from_stream ⟨exC3bytes, 0⟩ = .ok (outC3, ⟨exC3bytes, 150⟩) ∧
    (∀ e ∈ outC3.files, e.name ≠ [] ∧ e.name.head? ≠ some 0) :=
  ⟨rfl, c10_nonempty_names ⟨exC3bytes, 0⟩ outC3 ⟨exC3bytes, 150⟩ rfl⟩

/-- C6: the claim says a zero `files_per_table` makes the parse return a
fatal configuration error before entering the entry loop.  In fact there is
no such check: with one non-padding entry the code reads that entry and
then panics at `i % files_per_table` (division by zero, `.panicked` — not
an error return); and with a declared count of 0 the same zero
`files_per_table` parses successfully, showing no pre-loop check exists. -/
theorem c6_zero_files_per_table_panics :
    ZfsHeaders.from_stream ⟨exC6bytes, 0⟩ = .error .panicked ∧
    ZfsHeaders.from_stream ⟨exC6bBytes, 0⟩ = .ok (⟨1, 1, []⟩, ⟨exC6bBytes, 32⟩) :=
  ⟨rfl, rfl⟩

/-- C8: `ZfsEntry::get_data` on a stream holding at least `offset + size`
bytes returns exactly the `size` archive bytes in `[offset, offset+size)`. -/
theorem c8_get_data_exact (e : ZfsEntry) (s : ByteStream)
    (hlen : e.offset + e.size ≤ s.data.length) :
    e.get_data s = .ok ((s.data.drop e.offset).take e.size, ⟨s.data, e.offset + e.size⟩) ∧
    ((s.data.drop e.offset).take e.size).length = e.size := by
  have hk : min e.size (s.data.length - e.offset) = e.size := by omega
  constructor
  · simp only [ZfsEntry.get_data, seekFromStart, readFill, hk]
    simp [Nat.sub_self]
  · rw [List.length_take, List.length_drop]
    omega

/-- A directory entry pointing at bytes `[3, 7)` of a 9-byte archive. -/
def entC8 : ZfsEntry := ⟨[65], 3, 4, 0, 0⟩

/-- The archive bytes for the C8 witness. -/
def exC8data : List Nat := [10, 11, 12, 13, 14, 15, 16, 17, 18]

/-- Witness for C8: the extracted range is exactly `[13, 14, 15, 16]`. -/
theorem c8_get_data_exact_witness :
    (entC8.offset + entC8.size ≤ exC8data.length) ∧
    (exC8data.drop entC8.offset).take entC8.size = [13, 14, 15, 16] ∧
    (entC8.get_data ⟨exC8data, 0⟩ =
      .ok ((exC8data.drop entC8.offset).take entC8.size,
           ⟨exC8data, entC8.offset + entC8.size⟩) ∧
     ((exC8data.drop entC8.offset).take entC8.size).length = entC8.size) :=
  ⟨by decide, by decide, c8_get_data_exact entC8 ⟨exC8data, 0⟩ (by decide)⟩
